import Mathlib

/-!
Verification development for the banner-detector repository
(`src/models/nn_models/UnetLogoInsertion.py`).

The Python source is shallowly embedded below.  Pixel coordinates and the
arithmetic of the compositor / detector are modelled over `ℚ` (the float
arithmetic of the source is treated as exact real arithmetic); the
stabilization pass `__smooth_points`, which uses `np.sqrt` and `np.arccos`,
is modelled over `ℝ`.  Fallible operations (Python exceptions such as
`KeyError`, `ZeroDivisionError`, `ValueError`, `NameError`) are embedded
with `Except String`.  External collaborators (the Unet model, cv2 contour
extraction, cv2 colour-space conversion, scipy's `savgol_filter`) are taken
as parameters or as input data, exactly at the interface the source uses.
-/

namespace BannerDetector

open Classical in
/-- Python's built-in `round` on a real number: round half to even
(banker's rounding).  Used by `__adjust_logo_shape` (`round(...)` on corner
x-coordinates) and by `round(x, 2)` in `__logo_color_adj`. -/
def pyRound (q : ℚ) : ℤ :=
  let f : ℤ := ⌊q⌋
  let r : ℚ := q - f
  if r < 1/2 then f
  else if 1/2 < r then f + 1
  else if f % 2 = 0 then f else f + 1

/-- Python's `round(x, 2)` (two decimal places, half to even). -/
def roundTo2 (q : ℚ) : ℚ := (pyRound (q * 100) : ℚ) / 100

/-- A 2D point (pixel coordinates, modelled over `ℚ`). -/
structure Pt where
  x : ℚ
  y : ℚ
deriving DecidableEq, Repr

/-- The `self.corners` list as assembled by `__load_points`:
`self.corners = [top_left, bot_right, top_right, bot_left]`, so index 0 is
the top-left corner, index 1 the bottom-right, index 2 the top-right and
index 3 the bottom-left corner. -/
structure CornersArr where
  c0 : Pt  -- top_left
  c1 : Pt  -- bot_right
  c2 : Pt  -- top_right
  c3 : Pt  -- bot_left
deriving DecidableEq, Repr

/-- Embedding of the branch structure of `__adjust_logo_shape`
(lines 275-318): given the frame width `frameW` (`self.frame.shape[1]`),
the sticky width `oldW` (`self.old_width`) and `self.corners`, returns the
four target points `pts2` (in the order they are passed to
`cv2.getPerspectiveTransform`) together with the new value of
`self.old_width`.  The perspective warp itself is an external cv2 call and
is not modelled.  Division is total on `ℚ` (a zero denominator in `y_coef`
yields the junk value 0; in the source it yields numpy `inf`). -/
def adjustLogoShape (frameW : ℕ) (oldW : ℚ) (c : CornersArr) :
    (Pt × Pt × Pt × Pt) × ℚ :=
  if pyRound c.c1.x ≥ (frameW : ℤ) - 1 ∨ pyRound c.c2.x ≥ (frameW : ℤ) - 1 then
    -- right-side truncation (lines 288-300)
    let transformX := c.c0.x + oldW
    let yCoef := oldW / |c.c1.x - c.c0.x|
    let transformYTop := c.c0.y + |c.c2.y - c.c0.y| * yCoef
    let transformYBot := c.c3.y + |c.c2.y - c.c0.y| * yCoef
    ((c.c0, c.c3, ⟨transformX, transformYBot⟩, ⟨transformX, transformYTop⟩), oldW)
  else if pyRound c.c0.x ≤ 0 ∨ pyRound c.c3.x ≤ 0 then
    -- left-side truncation (lines 302-308)
    let transformX := c.c2.x - oldW
    ((⟨transformX, c.c0.y⟩, ⟨transformX, c.c3.y⟩, c.c1, c.c2), oldW)
  else
    -- fully in frame (lines 310-312): update the sticky width
    ((c.c0, c.c3, c.c1, c.c2), |c.c1.x - c.c0.x|)

/-- Embedding of the saturation-adjustment arithmetic of `__logo_color_adj`
(lines 320-348).  The cv2 BGR↔HSV conversions and channel split are
external; the saturation channels of the logo and of the cropped banner
area are taken as inputs (lists of `uint8` values).  `np.mean(...)
.astype(int)` truncates the (non-negative) mean toward zero, i.e. floor.
`trans_coef = round(mean_banner_s / mean_logo_s, 2)` is a Python integer
division producing a float; when `mean_logo_s` is zero Python raises
`ZeroDivisionError`, embedded as `.error`.  There is no guard in the
source. -/
def logoColorAdjCoef (logoS bannerS : List ℕ) : Except String ℚ :=
  let meanLogoS : ℤ := ⌊(logoS.sum : ℚ) / (logoS.length : ℚ)⌋
  let meanBannerS : ℤ := ⌊(bannerS.sum : ℚ) / (bannerS.length : ℚ)⌋
  if meanLogoS = 0 then .error "ZeroDivisionError"
  else .ok (roundTo2 ((meanBannerS : ℚ) / (meanLogoS : ℚ)))

/-- Maximum pointwise absolute deviation between two (equal-length) series:
`max(abs(new_series - series))` in `__smooth_series` (line 578).  For the
nonempty, equal-length inputs the source produces, the fold below agrees
with numpy's `max` because all entries are non-negative. -/
def maxAbsDev (a b : List ℚ) : ℚ :=
  ((a.zip b).map (fun p => |p.1 - p.2|)).foldr max 0

/-- Embedding of `__smooth_series` (lines 559-581).  `filt` stands for the
external `scipy.signal.savgol_filter` applied to the input series with a
given window size (the polynomial degree is fixed by configuration and
folded into `filt`).  Iterates window sizes from `minW` up to (excluding)
`maxW`, skipping even ones; whenever the filtered series deviates from the
original by strictly less than `thr` everywhere, it unconditionally becomes
the new `best_series`.  If no window ever passes, the initial empty list is
returned (the source's failure signal). -/
def smoothSeries (filt : List ℚ → ℕ → List ℚ) (minW maxW : ℕ) (thr : ℚ)
    (s : List ℚ) : List ℚ :=
  (List.range' minW (maxW - minW)).foldl
    (fun best wnd =>
      if wnd % 2 = 0 then best
      else if maxAbsDev (filt s wnd) s < thr then filt s wnd else best)
    []

/-! ### Frame detector: `__check_contours` (lines 125-204)

`cv2.findContours` / `cv2.minAreaRect` / `cv2.boxPoints` /
`cv2.contourArea` / `cv2.drawContours` are external capabilities; a
contour is therefore modelled as the data the source extracts from them:
its area, the centre `(xm, ym)` of its minimum-area rectangle, the four
box points of that rectangle, and its filled interior (the pixels that
`cv2.drawContours(fsz_mask, [cnt], -1, (1), -1)` sets to 1). -/

/-- An extracted contour, at the interface `__check_contours` consumes. -/
structure Contour where
  area : ℚ
  cx : ℚ
  cy : ℚ
  box : List Pt
  interior : ℕ → ℕ → Bool

/-- The mutable state threaded through the contour loop of
`__check_contours`: the `first_cnt` flag, the four corner variables
(Python locals, unbound before first assignment, hence `Option`),
`self.center_left` / `self.center_right` (read only after the first
qualifying contour sets them; 0 is an inert initial value), and the
output mask being filled. -/
structure DetectState where
  firstCnt : Bool
  top_left : Option Pt
  top_right : Option Pt
  bot_left : Option Pt
  bot_right : Option Pt
  centerLeft : ℚ
  centerRight : ℚ
  mask : ℕ → ℕ → Bool

/-- Corner-side assignment for the first qualifying contour
(lines 153-163): every box point is assigned to a quadrant relative to
the rectangle centre; later points overwrite earlier ones in the same
quadrant. -/
def assignAll (cx cy : ℚ) (box : List Pt) (st : DetectState) : DetectState :=
  box.foldl
    (fun s p =>
      if p.x < cx then
        if p.y < cy then { s with top_left := some p }
        else { s with bot_left := some p }
      else
        if p.y < cy then { s with top_right := some p }
        else { s with bot_right := some p })
    st

/-- Corner assignment when a later contour becomes the new left banner
piece (lines 171-178): only points left of the centre are assigned. -/
def assignLeft (cx cy : ℚ) (box : List Pt) (st : DetectState) : DetectState :=
  box.foldl
    (fun s p =>
      if p.x < cx then
        if p.y < cy then { s with top_left := some p }
        else { s with bot_left := some p }
      else s)
    st

/-- Corner assignment when a later contour becomes the new right banner
piece (lines 181-188): only points strictly right of the centre are
assigned. -/
def assignRight (cx cy : ℚ) (box : List Pt) (st : DetectState) : DetectState :=
  box.foldl
    (fun s p =>
      if cx < p.x then
        if p.y < cy then { s with top_right := some p }
        else { s with bot_right := some p }
      else s)
    st

/-- One iteration of the contour loop (lines 138-191).  A contour is
processed only when its area strictly exceeds `filter_area_size`;
processing assigns corners (first contour: all four and both centres;
later contours: the left or right pair when the centroid moves left of
`center_left` resp. right of `center_right`) and fills the contour's
interior into the output mask. -/
def processContour (thr : ℚ) (st : DetectState) (c : Contour) : DetectState :=
  if thr < c.area then
    let st1 :=
      if st.firstCnt then
        { assignAll c.cx c.cy c.box st with
            firstCnt := false, centerLeft := c.cx, centerRight := c.cx }
      else if c.cx < st.centerLeft then
        { assignLeft c.cx c.cy c.box st with centerLeft := c.cx }
      else if st.centerRight < c.cx then
        { assignRight c.cx c.cy c.box st with centerRight := c.cx }
      else st
    { st1 with mask := fun k j => st1.mask k j || c.interior k j }
  else st

/-- The contour fold of `__check_contours` over all extracted contours. -/
def detectFold (thr : ℚ) (st : DetectState) (cs : List Contour) : DetectState :=
  cs.foldl (processContour thr) st

/-- Outcome of `__check_contours` for one frame: either the Empty marker
(`np.save(..., np.zeros(1))` and no row appended to `self.saved_points`,
lines 194-196), or a filled mask together with the corner record appended
to the track store (lines 199-204).  If a corner variable was never
assigned, line 202 raises a Python `NameError`, embedded as `.error`. -/
inductive DetectResult where
  | empty : DetectResult
  | found (mask : ℕ → ℕ → Bool) (tl tr bl br : Pt) : DetectResult

/-- Embedding of `__check_contours`: fold over the contours, then either
emit the Empty marker or the filled mask plus corner record. -/
def checkContours (thr : ℚ) (m0 : ℕ → ℕ → Bool) (cs : List Contour) :
    Except String DetectResult :=
  let st := detectFold thr
    ⟨true, none, none, none, none, 0, 0, m0⟩ cs
  if st.firstCnt then .ok .empty
  else
    match st.top_left, st.top_right, st.bot_left, st.bot_right with
    | some tl, some tr, some bl, some br => .ok (.found st.mask tl tr bl br)
    | _, _, _, _ => .error "NameError"

/-- The replay-pass success flag (lines 93-99 of `detect_banner`): the
saved Empty marker (`len(self.detected_mask) == 1`) yields
`detection_successful = False`; a real mask yields `True`. -/
def detectionSuccessfulOf : DetectResult → Bool
  | .empty => false
  | .found _ _ _ _ _ => true

/-- Corner record carried by a successful detection, `none` for Empty. -/
def cornersOf : DetectResult → Option (Pt × Pt × Pt × Pt)
  | .empty => none
  | .found _ tl tr bl br => some (tl, tr, bl, br)

/-- The saved mask, read pointwise (`false` everywhere for Empty). -/
def maskAt : DetectResult → ℕ → ℕ → Bool
  | .empty => fun _ _ => false
  | .found m _ _ _ _ => fun k j => m k j

/-! ### Logo insertion: the pixel-replacement loop of `insert_logo`
(lines 120-123) and its `detection_successful` gate (lines 107-108). -/

/-- Write one pixel of a frame (frames are modelled as total functions
from pixel position to pixel value). -/
def writePx {α : Type} (f : ℕ → ℕ → α) (k j : ℕ) (v : α) : ℕ → ℕ → α :=
  fun k' j' => if k' = k ∧ j' = j then v else f k' j'

/-- The inner loop over columns of one frame row: every pixel whose mask
value is 1 is overwritten with the warped logo's pixel. -/
def insertRow {α : Type} (mask : ℕ → ℕ → ℕ) (tlogo : ℕ → ℕ → α) (k W : ℕ)
    (f : ℕ → ℕ → α) : ℕ → ℕ → α :=
  (List.range W).foldl
    (fun g j => if mask k j = 1 then writePx g k j (tlogo k j) else g) f

/-- The double pixel loop of `insert_logo` over a `H × W` frame. -/
def insertLoop {α : Type} (H W : ℕ) (mask : ℕ → ℕ → ℕ) (tlogo : ℕ → ℕ → α)
    (f : ℕ → ℕ → α) : ℕ → ℕ → α :=
  (List.range H).foldl (fun g k => insertRow mask tlogo k W g) f

/-- `insert_logo` including its gate: when `detection_successful` is
false the method returns immediately (line 107-108) and the frame is left
untouched. -/
def insertLogoGated {α : Type} (successful : Bool) (H W : ℕ)
    (mask : ℕ → ℕ → ℕ) (tlogo : ℕ → ℕ → α) (f : ℕ → ℕ → α) : ℕ → ℕ → α :=
  if successful then insertLoop H W mask tlogo f else f

/-! ### Stabilization: `__smooth_points` (lines 417-557)

The track store `self.saved_points` is modelled as a list of per-frame
corner records, indexed by position (the source indexes rows by frame
label with `.loc`; rows are appended in increasing frame order and the
stabilization code addresses them as the contiguous range
`range(len(self.saved_points))`, which is the situation modelled here).
Coordinates are `ℝ` because the derived features use `np.sqrt` and
`np.arccos`.  Division on `ℝ` is total with junk value 0 at zero
denominators (the source produces numpy `inf`/`nan` there, with no
guard). -/

/-- One row of `self.saved_points`: the eight corner coordinates. -/
@[ext]
structure Rec where
  xtl : ℝ
  ytl : ℝ
  xtr : ℝ
  ytr : ℝ
  xbl : ℝ
  ybl : ℝ
  xbr : ℝ
  ybr : ℝ

instance : Inhabited Rec := ⟨⟨0, 0, 0, 0, 0, 0, 0, 0⟩⟩

/-- `center_x` (lines 426-431): mean of the two diagonal midpoints. -/
noncomputable def centerX (r : Rec) : ℝ :=
  ((r.xtl + r.xbr) / 2 + (r.xtr + r.xbl) / 2) / 2

/-- `center_y` (lines 427-432). -/
noncomputable def centerY (r : Rec) : ℝ :=
  ((r.ytl + r.ybr) / 2 + (r.ytr + r.ybl) / 2) / 2

/-- `dist_top_left` (line 434 via `get_distance`): distance from the
centre to the top-left corner. -/
noncomputable def distTopLeft (r : Rec) : ℝ :=
  Real.sqrt ((centerX r - r.xtl) ^ 2 + (centerY r - r.ytl) ^ 2)

/-- `left_height` (lines 439-441). -/
noncomputable def leftHeight (r : Rec) : ℝ :=
  Real.sqrt ((r.xtl - r.xbl) ^ 2 + (r.ytl - r.ybl) ^ 2)

/-- `right_height` (lines 443-445). -/
noncomputable def rightHeight (r : Rec) : ℝ :=
  Real.sqrt ((r.xtr - r.xbr) ^ 2 + (r.ytr - r.ybr) ^ 2)

/-- `top_width` (line 442). -/
noncomputable def topWidth (r : Rec) : ℝ := |r.xtl - r.xtr|

/-- The `ratio` column (line 448): `top_width / left_height`. -/
noncomputable def ratioTW (r : Rec) : ℝ := topWidth r / leftHeight r

/-- `cos_alpha` (lines 451-459): cosine of the angle between the
top-left→top-right and top-left→bottom-left difference vectors. -/
noncomputable def cosAlpha (r : Rec) : ℝ :=
  ((r.xtr - r.xtl) * (r.xbl - r.xtl) + (r.ytr - r.ytl) * (r.ybl - r.ytl)) /
    (Real.sqrt ((r.xtr - r.xtl) ^ 2 + (r.ytr - r.ytl) ^ 2) *
      Real.sqrt ((r.xbl - r.xtl) ^ 2 + (r.ybl - r.ytl) ^ 2))

/-- The `angle` column (line 460): `arccos(cos_alpha) * 180 / pi`. -/
noncomputable def angle (r : Rec) : ℝ :=
  Real.arccos (cosAlpha r) * (180 / Real.pi)

/-- The fixed local `ratio = 6.6` of `__smooth_points` (line 449), the
expected width/height ratio constant. -/
noncomputable def ratioConst : ℝ := 6.6

/-- The derived feature columns consumed by the main correction pass.
They are computed once, before any coordinate is rewritten, and are never
recomputed (they are DataFrame columns). -/
structure Feat where
  leftH : ℝ
  rightH : ℝ
  rTW : ℝ
  ang : ℝ

instance : Inhabited Feat := ⟨⟨0, 0, 0, 0⟩⟩

/-- Feature columns of one record. -/
noncomputable def mkFeat (r : Rec) : Feat :=
  ⟨leftHeight r, rightHeight r, ratioTW r, angle r⟩

/-- The `lost_side` loop (lines 464-471): candidate-unstable frame
indices, collected where the frame-to-frame jump of `dist_top_left`
strictly exceeds 5.  `prev` starts at row 0's own distance, so index 0's
jump is 0 and index 0 is never a candidate. -/
noncomputable def candidatesAux (prev : ℝ) (ds : List ℝ) (i : ℕ) : List ℕ :=
  match ds with
  | [] => []
  | d :: rest =>
      (if |d - prev| > 5 then [i] else []) ++ candidatesAux d rest (i + 1)

open Classical in
/-- `lost_side` for a whole store.  On an empty store the source raises
`KeyError` at `self.saved_points.loc[0]` (line 465); `smoothPoints`
errors out before reaching this point, so the `[]` case here is inert. -/
noncomputable def candidates (st : List Rec) : List ℕ :=
  match st with
  | [] => []
  | r0 :: _ => candidatesAux (distTopLeft r0) (st.map distTopLeft) 0

/-- The flag-array loop (lines 473-481): starting from an all-zero array
of length `len(store)`, each candidate index `i` whose coordinate (under
`proj`) moved by strictly more than 9 pixels versus row `i - 1` is set. -/
noncomputable def flagsFrom (st : List Rec) (proj : Rec → ℝ) : List Bool :=
  (candidates st).foldl
    (fun arr i =>
      if |proj (st.getD i default) - proj (st.getD (i - 1) default)| > 9 then
        arr.set i true
      else arr)
    (List.replicate st.length false)

open Classical in
/-- The `unstable_left` column (lines 477-478, 484). -/
noncomputable def unstableLeft (st : List Rec) : List Bool :=
  flagsFrom st Rec.xtl

/-- The `unstable_right` column (lines 480-481, 483). -/
noncomputable def unstableRight (st : List Rec) : List Bool :=
  flagsFrom st Rec.xtr

/-- The y-rectification (lines 486-494), applied column-wise to every
frame: `y(x) = (x - x_top_left) * (y_top_right - y_top_left) /
(x_top_right - x_top_left) + y_top_left`; `y_top_right` becomes
`y(x_top_right)` and `y_bot_right` becomes `y(x_bot_right) +
left_height`.  All inputs are the pre-rectification columns (the local
Series bound on lines 486-489 keep referencing the old columns). -/
noncomputable def rectify (r : Rec) : Rec :=
  { r with
      ytr := (r.xtr - r.xtl) * (r.ytr - r.ytl) / (r.xtr - r.xtl) + r.ytl,
      ybr := (r.xbr - r.xtl) * (r.ytr - r.ytl) / (r.xtr - r.xtl) + r.ytl +
        leftHeight r }

/-- `latest_unstable` (line 496): which side was most recently flagged. -/
inductive Side where
  | left : Side
  | right : Side
deriving DecidableEq

/-- The Python locals `x_top_left, x_bot_left, x_top_right, x_bot_right`
of the main loop body (lines 499-502).  The window loops reassign some of
them (lines 509-510, 523-524), and the ratio branch reads whatever they
hold afterwards. -/
structure Locals where
  xtl : ℝ
  xbl : ℝ
  xtr : ℝ
  xbr : ℝ

/-- The reconstruction increment `left_height * (ratio * angle / 90)`
used when rewriting the right side from the left (lines 512-515,
546-549). -/
noncomputable def rightCorr (f : Feat) : ℝ := f.leftH * (ratioConst * f.ang / 90)

/-- The reconstruction decrement `right_height * (ratio * angle / 90)`
used when rewriting the left side from the right (lines 526-530,
537-540). -/
noncomputable def leftCorr (f : Feat) : ℝ := f.rightH * (ratioConst * f.ang / 90)

/-- The `unstable_right` correction window (lines 506-518): for every
position in `range(x - 10, x + 10)`, rewrite `x_top_right` and
`x_bot_right` from that position's current `x_top_left` / `x_bot_left`
and its fixed `left_height` and `angle` columns, via
`x_left + left_height * (ratio * angle / 90)`.  A position outside the
store raises `KeyError` in the source (`.loc` on a missing label),
embedded as an upfront bounds check. -/
noncomputable def windowRightStep (feats : List Feat) (x : ℕ)
    (p : List Rec × Locals) (k : ℕ) : List Rec × Locals :=
  let pos := x - 10 + k
  let cur := p.1.getD pos default
  let f := feats.getD pos default
  let l' : Locals := { p.2 with xtl := cur.xtl, xbl := cur.xbl }
  (p.1.set pos
    { cur with xtr := cur.xtl + rightCorr f, xbr := cur.xbl + rightCorr f },
   l')

noncomputable def windowRight (feats : List Feat) (x : ℕ) (st : List Rec)
    (l : Locals) : Except String (List Rec × Locals) :=
  if 10 ≤ x ∧ x + 10 ≤ st.length then
    .ok ((List.range 20).foldl (windowRightStep feats x) (st, l))
  else .error "KeyError"

/-- The `unstable_left` correction window (lines 520-533), symmetric:
rewrite `x_top_left` / `x_bot_left` from the position's current
`x_top_right` / `x_bot_right` via
`x_right - right_height * (ratio * angle / 90)`. -/
noncomputable def windowLeftStep (feats : List Feat) (x : ℕ)
    (p : List Rec × Locals) (k : ℕ) : List Rec × Locals :=
  let pos := x - 10 + k
  let cur := p.1.getD pos default
  let f := feats.getD pos default
  let l' : Locals := { p.2 with xtr := cur.xtr, xbr := cur.xbr }
  (p.1.set pos
    { cur with xtl := cur.xtr - leftCorr f, xbl := cur.xbr - leftCorr f },
   l')

noncomputable def windowLeft (feats : List Feat) (x : ℕ) (st : List Rec)
    (l : Locals) : Except String (List Rec × Locals) :=
  if 10 ≤ x ∧ x + 10 ≤ st.length then
    .ok ((List.range 20).foldl (windowLeftStep feats x) (st, l))
  else .error "KeyError"

/-- One iteration of the main correction pass (lines 497-552) at frame
`x`: run the `unstable_right` window if flagged (setting
`latest_unstable = right`), then the `unstable_left` window if flagged
(setting `latest_unstable = left`), then — when the stored `ratio`
deviates from 6.6 by more than 0.05 — reconstruct the side most recently
flagged, gated by a bound on the locals' anchor x (`x_top_right <= 1278`
resp. `x_top_left >= 2`).  The ratio branch reads the loop locals, which
the window loops may have left pointing at position `x + 9`'s values. -/
noncomputable def stepFrame (feats : List Feat) (fL fR : List Bool)
    (acc : List Rec × Option Side) (x : ℕ) :
    Except String (List Rec × Option Side) :=
  let st := acc.1
  let latest := acc.2
  let row := st.getD x default
  let l0 : Locals := ⟨row.xtl, row.xbl, row.xtr, row.xbr⟩
  let step1 : Except String (List Rec × Locals × Option Side) :=
    if fR.getD x false then
      match windowRight feats x st l0 with
      | .ok (st1, l1) => .ok (st1, l1, some Side.right)
      | .error e => .error e
    else .ok (st, l0, latest)
  match step1 with
  | .error e => .error e
  | .ok (st1, l1, lat1) =>
    let step2 : Except String (List Rec × Locals × Option Side) :=
      if fL.getD x false then
        match windowLeft feats x st1 l1 with
        | .ok (st2, l2) => .ok (st2, l2, some Side.left)
        | .error e => .error e
      else .ok (st1, l1, lat1)
    match step2 with
    | .error e => .error e
    | .ok (st2, l2, lat2) =>
      let f := feats.getD x default
      let st3 :=
        if |f.rTW - ratioConst| > 0.05 then
          let stA :=
            if lat2 = some Side.left ∧ l2.xtr ≤ 1278 then
              let cur := st2.getD x default
              st2.set x
                { cur with xtl := l2.xtr - leftCorr f, xbl := l2.xbr - leftCorr f }
            else st2
          if lat2 = some Side.right ∧ 2 ≤ l2.xtl then
            let cur := stA.getD x default
            stA.set x
              { cur with xtr := l2.xtl + rightCorr f, xbr := l2.xbl + rightCorr f }
          else stA
        else st2
      .ok (st3, lat2)

/-- The main correction pass: fold `stepFrame` over all frame positions,
starting with `latest_unstable = None`. -/
noncomputable def mainLoop (feats : List Feat) (fL fR : List Bool)
    (st0 : List Rec) : Except String (List Rec) :=
  match (List.range st0.length).foldlM (stepFrame feats fL fR) (st0, none) with
  | .ok p => .ok p.1
  | .error e => .error e

/-- The final smoothing stage (lines 554-557): the four y-coordinate
columns are independently passed through `__smooth_series` (`sm`) and
assigned back.  pandas raises `ValueError` when an assigned column's
length differs from the store's (in particular for the empty failure
result of `__smooth_series`). -/
noncomputable def smoothYs (sm : List ℝ → List ℝ) (st2 : List Rec) :
    Except String (List Rec) :=
  if (sm (st2.map Rec.ytl)).length = st2.length ∧
      (sm (st2.map Rec.ytr)).length = st2.length ∧
      (sm (st2.map Rec.ybl)).length = st2.length ∧
      (sm (st2.map Rec.ybr)).length = st2.length then
    .ok ((List.range st2.length).map (fun i =>
      { st2.getD i default with
          ytl := (sm (st2.map Rec.ytl)).getD i 0,
          ytr := (sm (st2.map Rec.ytr)).getD i 0,
          ybl := (sm (st2.map Rec.ybl)).getD i 0,
          ybr := (sm (st2.map Rec.ybr)).getD i 0 }))
  else .error "ValueError"

/-- Embedding of the whole of `__smooth_points`: feature and flag
computation (on the original store), y-rectification, the main
correction pass, then independent smoothing of the four y-coordinate
columns through `__smooth_series` (abstracted as `sm`; its selection
logic is verified separately over `ℚ`).  An empty store raises `KeyError`
at line 465 (`self.saved_points.loc[0]`). -/
noncomputable def smoothPoints (sm : List ℝ → List ℝ) (st0 : List Rec) :
    Except String (List Rec) :=
  if st0.isEmpty then .error "KeyError"
  else
    match mainLoop (st0.map mkFeat) (unstableLeft st0) (unstableRight st0)
        (st0.map rectify) with
    | .error e => .error e
    | .ok st2 => smoothYs sm st2

/-- The x-coordinates of a record (the data C5 speaks about). -/
noncomputable def xProj (r : Rec) : ℝ × ℝ × ℝ × ℝ :=
  (r.xtl, r.xtr, r.xbl, r.xbr)

/-! ### Concrete inputs used by witnesses, scenarios and counterexamples -/

/-- Concrete small contour (area 50, below a threshold of 100), reused by
the C4 witness and the C7 two-contour scenario. -/
def cSmall : Contour :=
  ⟨50, 90, 50, [⟨80, 40⟩, ⟨80, 60⟩, ⟨100, 40⟩, ⟨100, 60⟩],
    fun k j => k == 2 && j == 2⟩

/-- Quad used to refute the claimed `old_width` formula: fully in frame,
with `bot_right.x = 60` but `top_right.x = 50`. -/
def cexCorners : CornersArr := ⟨⟨10, 0⟩, ⟨60, 20⟩, ⟨50, 0⟩, ⟨10, 20⟩⟩

/-- Quad with `top_right.x = frame_width - 1` for `frame_width = 100`. -/
def truncCorners : CornersArr := ⟨⟨50, 0⟩, ⟨99, 20⟩, ⟨99, 0⟩, ⟨50, 20⟩⟩

/-- Specification-side definition (from the spec's words, for comparison
with the source-derived `smoothSeries`): the last odd window size in
iteration order, from `minW` up to excluding `maxW`, whose filtered series
deviates from the original strictly less than `thr` everywhere. -/
def specLastPassingWindow (filt : List ℚ → ℕ → List ℚ) (minW maxW : ℕ)
    (thr : ℚ) (s : List ℚ) : Option ℕ :=
  ((List.range' minW (maxW - minW)).filter
    (fun w => !(w % 2 == 0) && decide (maxAbsDev (filt s w) s < thr))).getLast?

/-- Contour of area 500 (kept under threshold 100), with minimum-area
rectangle centred at (50, 50) and box points giving corners (30, 30),
(70, 30), (30, 70), (70, 70); its interior contains pixel (1, 1). -/
def cBig : Contour :=
  ⟨500, 50, 50, [⟨30, 30⟩, ⟨30, 70⟩, ⟨70, 30⟩, ⟨70, 70⟩],
    fun k j => k == 1 && j == 1⟩

/-- Unit-square corner record: top edge horizontal, left edge vertical. -/
noncomputable def rUnit : Rec := ⟨0, 0, 1, 0, 0, 1, 1, 1⟩

/-! ### Concrete records used by witnesses and the C5 counterexample.

`recA` is an axis-aligned-top quad whose derived values are exact:
`dist_top_left = 65/4`, `left_height = 8`, `right_height = 10`,
`angle = 90`.  `recB` shares `dist_top_left = 65/4` (through its raised
`y_bot_right = 57`) while its x-coordinates sit 10 px away from `recA`'s;
`recB'` is `recB` after y-rectification (`y_bot_right` pulled to 8), with
`dist_top_left = 4`. -/

noncomputable def recA : Rec := ⟨0, 0, 69 / 2, 0, 0, 8, 57 / 2, 8⟩

noncomputable def recB : Rec := ⟨10, 0, 13, 0, 10, 8, 7, 57⟩

noncomputable def recB' : Rec := ⟨10, 0, 13, 0, 10, 8, 7, 8⟩

/-! ### Generic list lemmas used by several proofs below -/

theorem getD_set {α : Type} (l : List α) (n i : ℕ) (v d : α) :
    (l.set n v).getD i d = if i = n ∧ n < l.length then v else l.getD i d := by
  induction l generalizing n i with
  | nil => simp
  | cons a l ih =>
    cases n with
    | zero =>
      cases i with
      | zero => simp
      | succ i => simp
    | succ n =>
      cases i with
      | zero => simp
      | succ i =>
        show (l.set n v).getD i d = _
        rw [ih]
        simp only [List.length_cons]
        split_ifs <;> first | rfl | omega

theorem getD_replicate {α : Type} (m n : ℕ) (a d : α) :
    (List.replicate m a).getD n d = if n < m then a else d := by
  induction m generalizing n with
  | zero => simp
  | succ m ih =>
    cases n with
    | zero => simp
    | succ n => simpa [List.replicate_succ, Nat.succ_lt_succ_iff] using ih n

theorem le_foldr_max (l : List ℚ) (x : ℚ) (hx : x ∈ l) :
    x ≤ l.foldr max 0 := by
  induction l with
  | nil => cases hx
  | cons a l ih =>
    rcases List.mem_cons.1 hx with h | h
    · subst h; exact le_max_left _ _
    · exact (ih h).trans (le_max_right _ _)

/-! ### C10: the pixel-replacement loop of `insert_logo` -/

theorem writeStep_apply {α : Type} (mask : ℕ → ℕ → ℕ) (tlogo : ℕ → ℕ → α)
    (g : ℕ → ℕ → α) (k a k' j' : ℕ) :
    (if mask k a = 1 then writePx g k a (tlogo k a) else g) k' j' =
      if k' = k ∧ j' = a ∧ mask k j' = 1 then tlogo k j' else g k' j' := by
  by_cases h : mask k a = 1
  · simp only [h, if_true, writePx]
    by_cases h1 : k' = k ∧ j' = a
    · obtain ⟨hk, hj⟩ := h1
      subst hk; subst hj
      simp [h]
    · rw [if_neg h1,
        if_neg (fun hc : k' = k ∧ j' = a ∧ mask k j' = 1 => h1 ⟨hc.1, hc.2.1⟩)]
  · simp only [h, if_false]
    rw [if_neg (fun hc : k' = k ∧ j' = a ∧ mask k j' = 1 => h (hc.2.1 ▸ hc.2.2))]

theorem insertRowFold_apply {α : Type} (mask : ℕ → ℕ → ℕ)
    (tlogo : ℕ → ℕ → α) (k : ℕ) (L : List ℕ) (f : ℕ → ℕ → α) (k' j' : ℕ) :
    (L.foldl (fun g j => if mask k j = 1 then writePx g k j (tlogo k j) else g)
        f) k' j' =
      if k' = k ∧ j' ∈ L ∧ mask k j' = 1 then tlogo k j' else f k' j' := by
  induction L generalizing f with
  | nil => simp
  | cons a L ih =>
    rw [List.foldl_cons, ih, writeStep_apply]
    simp only [List.mem_cons]
    have hCiff : (k' = k ∧ (j' = a ∨ j' ∈ L) ∧ mask k j' = 1) ↔
        ((k' = k ∧ j' ∈ L ∧ mask k j' = 1) ∨
          (k' = k ∧ j' = a ∧ mask k j' = 1)) := by tauto
    by_cases hA : k' = k ∧ j' ∈ L ∧ mask k j' = 1
    · rw [if_pos hA, if_pos (hCiff.2 (Or.inl hA))]
    · rw [if_neg hA]
      by_cases hB : k' = k ∧ j' = a ∧ mask k j' = 1
      · rw [if_pos hB, if_pos (hCiff.2 (Or.inr hB))]
      · rw [if_neg hB, if_neg (fun hC => (hCiff.1 hC).elim hA hB)]

theorem insertRow_apply {α : Type} (mask : ℕ → ℕ → ℕ) (tlogo : ℕ → ℕ → α)
    (k W : ℕ) (f : ℕ → ℕ → α) (k' j' : ℕ) :
    insertRow mask tlogo k W f k' j' =
      if k' = k ∧ j' < W ∧ mask k j' = 1 then tlogo k j' else f k' j' := by
  rw [insertRow, insertRowFold_apply]
  simp [List.mem_range]

/-- C10: when logo insertion runs, the pixel loop of `insert_logo`
overwrites exactly the in-frame pixels at which the detected mask equals 1
with the warped logo's pixel at the same position, and leaves every other
pixel equal to its value in the input frame. -/
theorem c10_insert_logo_pixelwise {α : Type} (H W : ℕ) (mask : ℕ → ℕ → ℕ)
    (tlogo f : ℕ → ℕ → α) (k j : ℕ) :
    insertLoop H W mask tlogo f k j =
      if k < H ∧ j < W ∧ mask k j = 1 then tlogo k j else f k j := by
  have main : ∀ (L : List ℕ) (f : ℕ → ℕ → α),
      (L.foldl (fun g k0 => insertRow mask tlogo k0 W g) f) k j =
        if k ∈ L ∧ j < W ∧ mask k j = 1 then tlogo k j else f k j := by
    intro L
    induction L with
    | nil => simp
    | cons a L ih =>
      intro f
      rw [List.foldl_cons, ih, insertRow_apply]
      simp only [List.mem_cons]
      have hCiff : ((k = a ∨ k ∈ L) ∧ j < W ∧ mask k j = 1) ↔
          ((k ∈ L ∧ j < W ∧ mask k j = 1) ∨
            (k = a ∧ j < W ∧ mask k j = 1)) := by tauto
      by_cases hA : k ∈ L ∧ j < W ∧ mask k j = 1
      · rw [if_pos hA, if_pos (hCiff.2 (Or.inl hA))]
      · rw [if_neg hA]
        by_cases hB : k = a ∧ j < W ∧ mask k j = 1
        · rw [if_pos (show k = a ∧ j < W ∧ mask a j = 1 from
              ⟨hB.1, hB.2.1, hB.1 ▸ hB.2.2⟩),
            if_pos (hCiff.2 (Or.inr hB))]
          rw [hB.1]
        · rw [if_neg (fun hc : k = a ∧ j < W ∧ mask a j = 1 =>
              hB ⟨hc.1, hc.2.1, hc.1 ▸ hc.2.2⟩),
            if_neg (fun hC => (hCiff.1 hC).elim hA hB)]
  rw [insertLoop, main]
  simp [List.mem_range]

/-! ### C4: Empty marker and the insertion gate -/

theorem detectFold_of_none (thr : ℚ) (st : DetectState) (cs : List Contour)
    (h : ∀ c ∈ cs, ¬ thr < c.area) : detectFold thr st cs = st := by
  induction cs generalizing st with
  | nil => rfl
  | cons c cs ih =>
    have hc : ¬ thr < c.area := h c (List.mem_cons_self c cs)
    rw [detectFold, List.foldl_cons]
    rw [show processContour thr st c = st from by simp [processContour, hc]]
    exact ih st (fun c' hc' => h c' (List.mem_cons_of_mem c hc'))

/-- C4: if no contour's area strictly exceeds the filter threshold,
`__check_contours` emits the Empty marker (and appends no corner record),
and the replay pass then sets `detection_successful = False`, under which
`insert_logo` returns immediately and leaves the frame unmodified. -/
theorem c4_empty_marker_and_skip {α : Type} (thr : ℚ) (m0 : ℕ → ℕ → Bool)
    (cs : List Contour) (H W : ℕ) (mask : ℕ → ℕ → ℕ) (tlogo f : ℕ → ℕ → α)
    (h : ∀ c ∈ cs, ¬ thr < c.area) :
    checkContours thr m0 cs = .ok .empty ∧
    detectionSuccessfulOf .empty = false ∧
    insertLogoGated (detectionSuccessfulOf .empty) H W mask tlogo f = f := by
  refine ⟨?_, rfl, rfl⟩
  rw [checkContours, detectFold_of_none thr _ cs h]
  rfl


theorem c4_witness :
    (∀ c ∈ [cSmall], ¬ (100 : ℚ) < c.area) ∧
    (checkContours 100 (fun _ _ => false) [cSmall] = .ok .empty ∧
      detectionSuccessfulOf .empty = false ∧
      insertLogoGated (detectionSuccessfulOf .empty) 3 3 (fun _ _ => 0)
        (fun _ _ => (7 : ℕ)) (fun _ _ => (5 : ℕ)) = fun _ _ => (5 : ℕ)) := by
  have h : ∀ c ∈ [cSmall], ¬ (100 : ℚ) < c.area := by
    intro c hc
    simp only [List.mem_singleton] at hc
    subst hc
    norm_num [cSmall]
  exact ⟨h, c4_empty_marker_and_skip 100 (fun _ _ => false) [cSmall] 3 3
    (fun _ _ => 0) (fun _ _ => (7 : ℕ)) (fun _ _ => (5 : ℕ)) h⟩

/-! ### C6: the unguarded division in `__logo_color_adj` -/

/-- C6 (code bug): for a logo whose saturation channel is identically
zero, `trans_coef = round(mean_banner_s / mean_logo_s, 2)` divides by a
zero `mean_logo_s`; the source has no guard and the embedded computation
faults (`ZeroDivisionError`), rather than taking any guarded branch. -/
theorem c6_zero_mean_saturation_fault :
    logoColorAdjCoef [0, 0, 0, 0] [5, 5] = .error "ZeroDivisionError" := by
  simp [logoColorAdjCoef]

/-! ### C3: the sticky `old_width` update in `__adjust_logo_shape` -/

theorem pyRound_intCast (n : ℤ) : pyRound (n : ℚ) = n := by
  simp [pyRound]

/-- Branch facts for the second component of `adjustLogoShape` (its next
`old_width`): right truncation and left truncation keep `oldW`; the
fully-in-frame branch stores `|c1.x - c0.x|`, i.e.
`|bot_right.x - top_left.x|`. -/
theorem adjustLogoShape_snd_right (frameW : ℕ) (oldW : ℚ) (c : CornersArr)
    (h : pyRound c.c1.x ≥ (frameW : ℤ) - 1 ∨ pyRound c.c2.x ≥ (frameW : ℤ) - 1) :
    (adjustLogoShape frameW oldW c).2 = oldW := by
  rw [adjustLogoShape, if_pos h]

theorem adjustLogoShape_snd_left (frameW : ℕ) (oldW : ℚ) (c : CornersArr)
    (h1 : ¬(pyRound c.c1.x ≥ (frameW : ℤ) - 1 ∨ pyRound c.c2.x ≥ (frameW : ℤ) - 1))
    (h2 : pyRound c.c0.x ≤ 0 ∨ pyRound c.c3.x ≤ 0) :
    (adjustLogoShape frameW oldW c).2 = oldW := by
  rw [adjustLogoShape, if_neg h1, if_pos h2]

theorem adjustLogoShape_snd_inframe (frameW : ℕ) (oldW : ℚ) (c : CornersArr)
    (h1 : ¬(pyRound c.c1.x ≥ (frameW : ℤ) - 1 ∨ pyRound c.c2.x ≥ (frameW : ℤ) - 1))
    (h2 : ¬(pyRound c.c0.x ≤ 0 ∨ pyRound c.c3.x ≤ 0)) :
    (adjustLogoShape frameW oldW c).2 = |c.c1.x - c.c0.x| := by
  rw [adjustLogoShape, if_neg h1, if_neg h2]


/-- C3 counterexample: in the fully-in-frame branch the source sets
`old_width = abs(corners[1][0] - corners[0][0])`, i.e.
`|bot_right.x - top_left.x|` (= 50 here), not the claimed
`|top_right.x - top_left.x|` (= 40 here). -/
theorem c3_counterexample_old_width_uses_bot_right :
    (adjustLogoShape 1000 7 cexCorners).2 = 50 ∧
    |cexCorners.c2.x - cexCorners.c0.x| = 40 ∧
    (adjustLogoShape 1000 7 cexCorners).2 ≠
      |cexCorners.c2.x - cexCorners.c0.x| := by
  have p1 : pyRound cexCorners.c1.x = 60 := by
    rw [show cexCorners.c1.x = ((60 : ℤ) : ℚ) by norm_num [cexCorners],
      pyRound_intCast]
  have p2 : pyRound cexCorners.c2.x = 50 := by
    rw [show cexCorners.c2.x = ((50 : ℤ) : ℚ) by norm_num [cexCorners],
      pyRound_intCast]
  have p0 : pyRound cexCorners.c0.x = 10 := by
    rw [show cexCorners.c0.x = ((10 : ℤ) : ℚ) by norm_num [cexCorners],
      pyRound_intCast]
  have p3 : pyRound cexCorners.c3.x = 10 := by
    rw [show cexCorners.c3.x = ((10 : ℤ) : ℚ) by norm_num [cexCorners],
      pyRound_intCast]
  have hv : (adjustLogoShape 1000 7 cexCorners).2 = |cexCorners.c1.x - cexCorners.c0.x| :=
    adjustLogoShape_snd_inframe 1000 7 cexCorners
      (by rw [p1, p2]; norm_num) (by rw [p0, p3]; norm_num)
  have h50 : (adjustLogoShape 1000 7 cexCorners).2 = 50 := by
    rw [hv]; norm_num [cexCorners]
  have h40 : |cexCorners.c2.x - cexCorners.c0.x| = 40 := by norm_num [cexCorners]
  exact ⟨h50, h40, by rw [h50, h40]; norm_num⟩

/-- C3 (amended): `old_width` is updated only in the fully-in-frame
branch, where it is set to `|bot_right.x - top_left.x|`; both truncation
branches leave it unchanged, and a quad with `top_right.x = frame_width -
1` triggers right-truncation handling and yields `new_old_width =
old_width`. -/
theorem c3_old_width_sticky_update (frameW : ℕ) (oldW : ℚ) (c : CornersArr) :
    (pyRound c.c1.x ≥ (frameW : ℤ) - 1 ∨ pyRound c.c2.x ≥ (frameW : ℤ) - 1 →
      (adjustLogoShape frameW oldW c).2 = oldW) ∧
    (¬(pyRound c.c1.x ≥ (frameW : ℤ) - 1 ∨ pyRound c.c2.x ≥ (frameW : ℤ) - 1) →
      (pyRound c.c0.x ≤ 0 ∨ pyRound c.c3.x ≤ 0) →
      (adjustLogoShape frameW oldW c).2 = oldW) ∧
    (¬(pyRound c.c1.x ≥ (frameW : ℤ) - 1 ∨ pyRound c.c2.x ≥ (frameW : ℤ) - 1) →
      ¬(pyRound c.c0.x ≤ 0 ∨ pyRound c.c3.x ≤ 0) →
      (adjustLogoShape frameW oldW c).2 = |c.c1.x - c.c0.x|) ∧
    (c.c2.x = (frameW : ℚ) - 1 → (adjustLogoShape frameW oldW c).2 = oldW) := by
  refine ⟨adjustLogoShape_snd_right frameW oldW c,
    adjustLogoShape_snd_left frameW oldW c,
    adjustLogoShape_snd_inframe frameW oldW c, fun h => ?_⟩
  have hr : pyRound c.c2.x = (frameW : ℤ) - 1 := by
    rw [h, show ((frameW : ℚ) - 1) = (((frameW : ℤ) - 1 : ℤ) : ℚ) by push_cast; ring,
      pyRound_intCast]
  exact adjustLogoShape_snd_right frameW oldW c (Or.inr (le_of_eq hr.symm))


theorem c3_witness :
    truncCorners.c2.x = (100 : ℚ) - 1 ∧
    (adjustLogoShape 100 7 truncCorners).2 = 7 := by
  have h : truncCorners.c2.x = (100 : ℚ) - 1 := by norm_num [truncCorners]
  exact ⟨h, (c3_old_width_sticky_update 100 7 truncCorners).2.2.2 h⟩

/-! ### C2: `__smooth_series` keeps the last passing odd window -/


theorem smoothSeries_foldl (filt : List ℚ → ℕ → List ℚ) (thr : ℚ)
    (s : List ℚ) (L : List ℕ) (b : List ℚ) :
    L.foldl (fun best wnd => if wnd % 2 = 0 then best
        else if maxAbsDev (filt s wnd) s < thr then filt s wnd else best) b =
      match (L.filter
          (fun w => !(w % 2 == 0) &&
            decide (maxAbsDev (filt s w) s < thr))).getLast? with
      | some w => filt s w
      | none => b := by
  induction L generalizing b with
  | nil => rfl
  | cons a L ih =>
    rw [List.foldl_cons, ih]
    by_cases h2 : a % 2 = 0
    · rw [List.filter_cons_of_neg (by simp [h2])]
      rw [if_pos h2]
    · rw [if_neg h2]
      by_cases hd : maxAbsDev (filt s a) s < thr
      · rw [if_pos hd, List.filter_cons_of_pos (by simp [h2, hd])]
        cases hl : L.filter
            (fun w => !(w % 2 == 0) &&
              decide (maxAbsDev (filt s w) s < thr)) with
        | nil => rfl
        | cons x xs =>
          rw [List.getLast?_cons_cons]
          cases hgl : (x :: xs).getLast? with
          | none => simp at hgl
          | some y => rfl
      · rw [if_neg hd, List.filter_cons_of_neg (by simp [hd])]

/-- C2: `__smooth_series` returns exactly the filtered series of the last
odd window in iteration order whose maximum pointwise absolute deviation
from the original series stays strictly below the threshold; when such a
window exists, the result has the same length as the input and deviates
from it by less than the threshold at every point; when no window passes,
the empty failure result is returned instead of a valid series. -/
theorem c2_smooth_series_last_passing_window
    (filt : List ℚ → ℕ → List ℚ) (minW maxW : ℕ) (thr : ℚ) (s : List ℚ)
    (hlen : ∀ t w, (filt t w).length = t.length) :
    (smoothSeries filt minW maxW thr s =
      match specLastPassingWindow filt minW maxW thr s with
      | some w => filt s w
      | none => []) ∧
    (∀ w, specLastPassingWindow filt minW maxW thr s = some w →
      (smoothSeries filt minW maxW thr s).length = s.length ∧
      ∀ i, i < s.length →
        |(smoothSeries filt minW maxW thr s).getD i 0 - s.getD i 0| < thr) ∧
    (specLastPassingWindow filt minW maxW thr s = none →
      smoothSeries filt minW maxW thr s = []) := by
  have hmain : smoothSeries filt minW maxW thr s =
      match specLastPassingWindow filt minW maxW thr s with
      | some w => filt s w
      | none => [] :=
    smoothSeries_foldl filt thr s (List.range' minW (maxW - minW)) []
  refine ⟨hmain, fun w hw => ?_, fun hw => by rw [hmain, hw]⟩
  have hres : smoothSeries filt minW maxW thr s = filt s w := by rw [hmain, hw]
  have hwmem := List.mem_of_mem_getLast? hw
  have hpass : maxAbsDev (filt s w) s < thr := by
    have h2 := (List.mem_filter.1 hwmem).2
    simp only [Bool.and_eq_true, decide_eq_true_eq] at h2
    exact h2.2
  have hlen2 : (filt s w).length = s.length := hlen s w
  refine ⟨by rw [hres, hlen2], fun i hi => ?_⟩
  rw [hres]
  have hi2 : i < (filt s w).length := by rw [hlen2]; exact hi
  have hz : i < ((filt s w).zip s).length := by
    rw [List.length_zip]
    omega
  have hmem : |(filt s w).getD i 0 - s.getD i 0| ∈
      (((filt s w).zip s).map (fun p => |p.1 - p.2|)) := by
    rw [List.getD_eq_getElem _ _ hi2, List.getD_eq_getElem _ _ hi]
    apply List.mem_map.2
    refine ⟨((filt s w).zip s).get ⟨i, hz⟩, List.get_mem _ _ hz, ?_⟩
    rw [List.get_eq_getElem, List.getElem_zip]
  exact lt_of_le_of_lt (le_foldr_max _ _ hmem) hpass

theorem c2_witness :
    smoothSeries (fun t _ => t) 2 5 1 [1, 2] = [1, 2] := by
  have h := c2_smooth_series_last_passing_window (fun t _ => t) 2 5 1 [1, 2]
    (fun t w => rfl)
  have hdev : maxAbsDev ([1, 2] : List ℚ) [1, 2] = 0 := by
    simp [maxAbsDev]
  have hspec : specLastPassingWindow (fun t _ => t) 2 5 1 [1, 2] = some 3 := by
    rw [specLastPassingWindow,
      show List.range' 2 (5 - 2) = [2, 3, 4] from rfl]
    simp [List.filter, hdev]
  rw [h.1, hspec]

/-! ### C7: contours are kept iff their area exceeds the threshold -/

theorem assignAll_mask (cx cy : ℚ) (box : List Pt) (st : DetectState) :
    (assignAll cx cy box st).mask = st.mask := by
  induction box generalizing st with
  | nil => rfl
  | cons p box ih =>
    rw [assignAll, List.foldl_cons, ← assignAll, ih]
    split_ifs <;> rfl

theorem assignLeft_mask (cx cy : ℚ) (box : List Pt) (st : DetectState) :
    (assignLeft cx cy box st).mask = st.mask := by
  induction box generalizing st with
  | nil => rfl
  | cons p box ih =>
    rw [assignLeft, List.foldl_cons, ← assignLeft, ih]
    split_ifs <;> rfl

theorem assignRight_mask (cx cy : ℚ) (box : List Pt) (st : DetectState) :
    (assignRight cx cy box st).mask = st.mask := by
  induction box generalizing st with
  | nil => rfl
  | cons p box ih =>
    rw [assignRight, List.foldl_cons, ← assignRight, ih]
    split_ifs <;> rfl

theorem processContour_mask (thr : ℚ) (st : DetectState) (c : Contour)
    (k j : ℕ) :
    (processContour thr st c).mask k j =
      (st.mask k j || (decide (thr < c.area) && c.interior k j)) := by
  by_cases h : thr < c.area
  · simp only [processContour, if_pos h, decide_eq_true h, Bool.true_and]
    split_ifs <;>
      simp [assignAll_mask, assignLeft_mask, assignRight_mask]
  · simp [processContour, h]

theorem detectFold_mask (thr : ℚ) (cs : List Contour) (st : DetectState)
    (k j : ℕ) :
    (detectFold thr st cs).mask k j =
      (st.mask k j || cs.any (fun c => decide (thr < c.area) && c.interior k j)) := by
  induction cs generalizing st with
  | nil => simp [detectFold]
  | cons c cs ih =>
    rw [detectFold, List.foldl_cons, ← detectFold, ih, processContour_mask]
    simp [Bool.or_assoc]

theorem detectFold_cons (thr : ℚ) (st : DetectState) (c : Contour)
    (cs : List Contour) :
    detectFold thr st (c :: cs) = detectFold thr (processContour thr st c) cs :=
  rfl

theorem detectFold_filter (thr : ℚ) (cs : List Contour) (st : DetectState) :
    detectFold thr st cs =
      detectFold thr st (cs.filter (fun c => decide (thr < c.area))) := by
  induction cs generalizing st with
  | nil => rfl
  | cons c cs ih =>
    by_cases h : thr < c.area
    · rw [List.filter_cons_of_pos (by simp [h]), detectFold_cons,
        detectFold_cons]
      exact ih (processContour thr st c)
    · rw [List.filter_cons_of_neg (by simp [h]), detectFold_cons,
        show processContour thr st c = st from by simp [processContour, h]]
      exact ih st


/-- C7: processing a contour list is identical to processing only the
contours whose area strictly exceeds the filter threshold (discarded
contours change nothing); a pixel of the output mask is filled exactly
when some kept contour covers it; and for the two-contour scenario with
areas 500 and 50 under threshold 100 exactly the area-500 contour is kept
(its rectangle's corners are recorded, its interior is filled, the small
contour's is not) and detection succeeds. -/
theorem c7_area_filter_keeps_iff :
    (∀ (thr : ℚ) (m0 : ℕ → ℕ → Bool) (cs : List Contour),
      checkContours thr m0 cs =
        checkContours thr m0 (cs.filter (fun c => decide (thr < c.area)))) ∧
    (∀ (thr : ℚ) (st : DetectState) (cs : List Contour) (k j : ℕ),
      (detectFold thr st cs).mask k j =
        (st.mask k j ||
          cs.any (fun c => decide (thr < c.area) && c.interior k j))) ∧
    Except.map cornersOf (checkContours 100 (fun _ _ => false) [cBig, cSmall]) =
      .ok (some (⟨30, 30⟩, ⟨70, 30⟩, ⟨30, 70⟩, ⟨70, 70⟩)) ∧
    Except.map detectionSuccessfulOf
      (checkContours 100 (fun _ _ => false) [cBig, cSmall]) = .ok true ∧
    Except.map (fun r => maskAt r 1 1)
      (checkContours 100 (fun _ _ => false) [cBig, cSmall]) = .ok true ∧
    Except.map (fun r => maskAt r 2 2)
      (checkContours 100 (fun _ _ => false) [cBig, cSmall]) = .ok false := by
  refine ⟨fun thr m0 cs => by rw [checkContours, checkContours,
    ← detectFold_filter], fun thr st cs k j => detectFold_mask thr cs st k j,
    ?_, ?_, ?_, ?_⟩ <;>
    norm_num [checkContours, detectFold, processContour, assignAll,
      assignLeft, assignRight, cBig, cSmall, cornersOf, Except.map,
      detectionSuccessfulOf, maskAt, List.foldl_cons, List.foldl_nil]

/-! ### C8: the derived angle lies in [0, 180] degrees -/

theorem cos_bounds_of_pos (ax ay bx vy : ℝ) (hax : 0 < ax) (hvy : 0 < vy) :
    -1 ≤ (ax * bx + ay * vy) /
        (Real.sqrt (ax ^ 2 + ay ^ 2) * Real.sqrt (bx ^ 2 + vy ^ 2)) ∧
      (ax * bx + ay * vy) /
        (Real.sqrt (ax ^ 2 + ay ^ 2) * Real.sqrt (bx ^ 2 + vy ^ 2)) ≤ 1 := by
  have hs1 : 0 < ax ^ 2 + ay ^ 2 :=
    add_pos_of_pos_of_nonneg (pow_pos hax 2) (sq_nonneg ay)
  have hs2 : 0 < bx ^ 2 + vy ^ 2 :=
    add_pos_of_nonneg_of_pos (sq_nonneg bx) (pow_pos hvy 2)
  have hna := Real.sqrt_pos.2 hs1
  have hnb := Real.sqrt_pos.2 hs2
  have hprod := mul_pos hna hnb
  have hsq : (Real.sqrt (ax ^ 2 + ay ^ 2) * Real.sqrt (bx ^ 2 + vy ^ 2)) ^ 2 =
      (ax ^ 2 + ay ^ 2) * (bx ^ 2 + vy ^ 2) := by
    rw [mul_pow, Real.sq_sqrt hs1.le, Real.sq_sqrt hs2.le]
  constructor
  · rw [le_div_iff₀ hprod]
    nlinarith [sq_nonneg (ax * bx + ay * vy +
      Real.sqrt (ax ^ 2 + ay ^ 2) * Real.sqrt (bx ^ 2 + vy ^ 2)),
      sq_nonneg (ax * vy - ay * bx), hsq, hprod]
  · rw [div_le_one hprod]
    nlinarith [sq_nonneg (ax * bx + ay * vy -
      Real.sqrt (ax ^ 2 + ay ^ 2) * Real.sqrt (bx ^ 2 + vy ^ 2)),
      sq_nonneg (ax * vy - ay * bx), hsq, hprod]

/-- C8: for a non-degenerate quad (`top_left.x < top_right.x` and
`top_left.y < bot_left.y`) the two difference vectors are nonzero, so
`cos_alpha` is a genuine cosine in [-1, 1] (numpy's `arccos` receives an
in-range argument) and `angle = arccos(cos_alpha) * 180 / pi` lies in the
closed interval [0, 180]. -/
theorem c8_angle_in_range (r : Rec) (h1 : r.xtl < r.xtr)
    (h2 : r.ytl < r.ybl) :
    (-1 ≤ cosAlpha r ∧ cosAlpha r ≤ 1) ∧ 0 ≤ angle r ∧ angle r ≤ 180 := by
  have hbounds := cos_bounds_of_pos (r.xtr - r.xtl) (r.ytr - r.ytl)
    (r.xbl - r.xtl) (r.ybl - r.ytl) (sub_pos.2 h1) (sub_pos.2 h2)
  have hcos : -1 ≤ cosAlpha r ∧ cosAlpha r ≤ 1 := by
    rw [cosAlpha]
    exact hbounds
  have h0 : 0 ≤ Real.arccos (cosAlpha r) := Real.arccos_nonneg _
  have hπ : Real.arccos (cosAlpha r) ≤ Real.pi := Real.arccos_le_pi _
  have hc : 0 ≤ 180 / Real.pi := by positivity
  refine ⟨hcos, ?_, ?_⟩
  · rw [angle]
    exact mul_nonneg h0 hc
  · rw [angle]
    calc Real.arccos (cosAlpha r) * (180 / Real.pi) ≤
        Real.pi * (180 / Real.pi) := mul_le_mul_of_nonneg_right hπ hc
    _ = 180 := by
        field_simp


theorem c8_witness :
    rUnit.xtl < rUnit.xtr ∧ rUnit.ytl < rUnit.ybl ∧
    (0 ≤ angle rUnit ∧ angle rUnit ≤ 180) := by
  have ha : rUnit.xtl < rUnit.xtr := by norm_num [rUnit]
  have hb : rUnit.ytl < rUnit.ybl := by norm_num [rUnit]
  exact ⟨ha, hb, (c8_angle_in_range rUnit ha hb).2⟩

/-! ### Candidate and stability-flag lemmas (C9, C1) -/

theorem candidatesAux_bounds (ds : List ℝ) :
    ∀ (prev : ℝ) (i j : ℕ), j ∈ candidatesAux prev ds i →
      i ≤ j ∧ j < i + ds.length := by
  induction ds with
  | nil =>
    intro prev i j h
    simp [candidatesAux] at h
  | cons d rest ih =>
    intro prev i j h
    simp only [candidatesAux, List.mem_append] at h
    rcases h with h | h
    · split_ifs at h with hc
      · simp only [List.mem_singleton] at h
        subst h
        simp only [List.length_cons]
        omega
      · simp at h
    · obtain ⟨ha, hb⟩ := ih d (i + 1) j h
      simp only [List.length_cons]
      omega

theorem candidates_bounds (st : List Rec) :
    ∀ j ∈ candidates st, 1 ≤ j ∧ j < st.length := by
  intro j hj
  cases st with
  | nil => simp [candidates] at hj
  | cons r0 rest =>
    simp only [candidates, List.map_cons, candidatesAux, sub_self, abs_zero,
      List.mem_append] at hj
    rcases hj with hj | hj
    · rw [if_neg (by norm_num)] at hj
      simp at hj
    · obtain ⟨ha, hb⟩ := candidatesAux_bounds _ _ _ _ hj
      simp only [List.length_cons, List.length_map] at *
      omega

open Classical in
theorem foldl_set_true_getD (P : ℕ → Prop) (L : List ℕ) :
    ∀ (arr : List Bool) (i : ℕ), i < arr.length →
      (((L.foldl (fun a n => if P n then a.set n true else a) arr).getD i
          false = true) ↔
        ((i ∈ L ∧ P i) ∨ arr.getD i false = true)) := by
  induction L with
  | nil =>
    intro arr i hi
    simp
  | cons a L ih =>
    intro arr i hi
    rw [List.foldl_cons]
    have hlen : (if P a then arr.set a true else arr).length = arr.length := by
      split_ifs <;> simp
    rw [ih _ i (by rw [hlen]; exact hi)]
    by_cases hPa : P a
    · rw [if_pos hPa, getD_set]
      by_cases hia : i = a
      · subst hia
        simp [hPa, hi, List.mem_cons]
      · rw [if_neg (fun hc : i = a ∧ a < arr.length => hia hc.1)]
        simp only [List.mem_cons]
        constructor
        · rintro (⟨hm, hp⟩ | hr)
          exacts [Or.inl ⟨Or.inr hm, hp⟩, Or.inr hr]
        · rintro (⟨hm | hm, hp⟩ | hr)
          · exact absurd hm hia
          · exact Or.inl ⟨hm, hp⟩
          · exact Or.inr hr
    · rw [if_neg hPa]
      simp only [List.mem_cons]
      constructor
      · rintro (⟨hm, hp⟩ | hr)
        exacts [Or.inl ⟨Or.inr hm, hp⟩, Or.inr hr]
      · rintro (⟨hm | hm, hp⟩ | hr)
        · exact absurd (hm ▸ hp) hPa
        · exact Or.inl ⟨hm, hp⟩
        · exact Or.inr hr

theorem flagsFrom_getD (st : List Rec) (proj : Rec → ℝ) (i : ℕ)
    (hi : i < st.length) :
    ((flagsFrom st proj).getD i false = true ↔
      (i ∈ candidates st ∧
        |proj (st.getD i default) - proj (st.getD (i - 1) default)| > 9)) := by
  rw [flagsFrom, foldl_set_true_getD _ _ _ i (by simpa using hi),
    getD_replicate]
  simp [hi]

/-- C9: frame 0 is never flagged `unstable_left` or `unstable_right`: its
jump baseline is its own record, so its `dist_top_left` jump is exactly 0
and it never enters `lost_side`; consequently every candidate index `i`
satisfies `1 ≤ i < n`, so the predecessor access `loc[i - 1]` in the
flag-setting loop always hits an existing frame record. -/
theorem c9_frame_zero_stable (st : List Rec) (h : st ≠ []) :
    (unstableLeft st).getD 0 false = false ∧
    (unstableRight st).getD 0 false = false ∧
    ∀ i ∈ candidates st, 1 ≤ i ∧ i < st.length := by
  have hb := candidates_bounds st
  have h0 : (0 : ℕ) ∉ candidates st := fun hc => by
    have := (hb 0 hc).1
    omega
  have hlen : 0 < st.length := List.length_pos.2 h
  refine ⟨?_, ?_, hb⟩
  · cases hval : (unstableLeft st).getD 0 false with
    | false => rfl
    | true => exact absurd ((flagsFrom_getD st Rec.xtl 0 hlen).1 hval).1 h0
  · cases hval : (unstableRight st).getD 0 false with
    | false => rfl
    | true => exact absurd ((flagsFrom_getD st Rec.xtr 0 hlen).1 hval).1 h0

theorem c9_witness :
    (([recA, recA] : List Rec) ≠ []) ∧
    ((unstableLeft [recA, recA]).getD 0 false = false ∧
      (unstableRight [recA, recA]).getD 0 false = false ∧
      ∀ i ∈ candidates [recA, recA],
        1 ≤ i ∧ i < ([recA, recA] : List Rec).length) := by
  have hne : ([recA, recA] : List Rec) ≠ [] := by simp
  exact ⟨hne, c9_frame_zero_stable [recA, recA] hne⟩

/-! ### Correction-window lemmas (C1) -/

theorem windowRightStep_fst (feats : List Feat) (x : ℕ)
    (p : List Rec × Locals) (k : ℕ) :
    (windowRightStep feats x p k).1 =
      p.1.set (x - 10 + k)
        { p.1.getD (x - 10 + k) default with
            xtr := (p.1.getD (x - 10 + k) default).xtl +
              rightCorr (feats.getD (x - 10 + k) default),
            xbr := (p.1.getD (x - 10 + k) default).xbl +
              rightCorr (feats.getD (x - 10 + k) default) } := rfl

theorem windowLeftStep_fst (feats : List Feat) (x : ℕ)
    (p : List Rec × Locals) (k : ℕ) :
    (windowLeftStep feats x p k).1 =
      p.1.set (x - 10 + k)
        { p.1.getD (x - 10 + k) default with
            xtl := (p.1.getD (x - 10 + k) default).xtr -
              leftCorr (feats.getD (x - 10 + k) default),
            xbl := (p.1.getD (x - 10 + k) default).xbr -
              leftCorr (feats.getD (x - 10 + k) default) } := rfl

theorem windowRightFold_spec (feats : List Feat) (x : ℕ) (st : List Rec)
    (l : Locals) (hx : 10 ≤ x) (hn : x + 10 ≤ st.length) :
    ∀ m, m ≤ 20 →
      ((List.range m).foldl (windowRightStep feats x) (st, l)).1.length =
          st.length ∧
      (∀ p, x - 10 ≤ p → p < x - 10 + m →
        ((List.range m).foldl (windowRightStep feats x) (st, l)).1.getD p
            default =
          { st.getD p default with
              xtr := (st.getD p default).xtl +
                rightCorr (feats.getD p default),
              xbr := (st.getD p default).xbl +
                rightCorr (feats.getD p default) }) ∧
      (∀ p, ¬(x - 10 ≤ p ∧ p < x - 10 + m) →
        ((List.range m).foldl (windowRightStep feats x) (st, l)).1.getD p
            default = st.getD p default) := by
  intro m
  induction m with
  | zero =>
    intro _
    exact ⟨rfl, fun p h1 h2 => by omega, fun p _ => rfl⟩
  | succ m ih =>
    intro hm
    obtain ⟨ihlen, ihin, ihout⟩ := ih (by omega)
    rw [List.range_succ, List.foldl_append, List.foldl_cons, List.foldl_nil]
    rw [windowRightStep_fst]
    have hposout : ((List.range m).foldl (windowRightStep feats x)
        (st, l)).1.getD (x - 10 + m) default = st.getD (x - 10 + m) default :=
      ihout (x - 10 + m) (by omega)
    have hposlt : x - 10 + m <
        ((List.range m).foldl (windowRightStep feats x) (st, l)).1.length := by
      rw [ihlen]; omega
    refine ⟨by rw [List.length_set, ihlen], fun p h1 h2 => ?_, fun p hp => ?_⟩
    · rw [getD_set]
      by_cases hpe : p = x - 10 + m
      · rw [if_pos ⟨hpe, hposlt⟩, hpe, hposout]
      · rw [if_neg (fun hc => hpe hc.1)]
        exact ihin p h1 (by omega)
    · rw [getD_set, if_neg (by rintro ⟨hc1, -⟩; exact hp ⟨by omega, by omega⟩)]
      exact ihout p (fun hc => hp ⟨hc.1, Nat.lt_succ_of_lt hc.2⟩)

theorem windowLeftFold_spec (feats : List Feat) (x : ℕ) (st : List Rec)
    (l : Locals) (hx : 10 ≤ x) (hn : x + 10 ≤ st.length) :
    ∀ m, m ≤ 20 →
      ((List.range m).foldl (windowLeftStep feats x) (st, l)).1.length =
          st.length ∧
      (∀ p, x - 10 ≤ p → p < x - 10 + m →
        ((List.range m).foldl (windowLeftStep feats x) (st, l)).1.getD p
            default =
          { st.getD p default with
              xtl := (st.getD p default).xtr -
                leftCorr (feats.getD p default),
              xbl := (st.getD p default).xbr -
                leftCorr (feats.getD p default) }) ∧
      (∀ p, ¬(x - 10 ≤ p ∧ p < x - 10 + m) →
        ((List.range m).foldl (windowLeftStep feats x) (st, l)).1.getD p
            default = st.getD p default) := by
  intro m
  induction m with
  | zero =>
    intro _
    exact ⟨rfl, fun p h1 h2 => by omega, fun p _ => rfl⟩
  | succ m ih =>
    intro hm
    obtain ⟨ihlen, ihin, ihout⟩ := ih (by omega)
    rw [List.range_succ, List.foldl_append, List.foldl_cons, List.foldl_nil]
    rw [windowLeftStep_fst]
    have hposout : ((List.range m).foldl (windowLeftStep feats x)
        (st, l)).1.getD (x - 10 + m) default = st.getD (x - 10 + m) default :=
      ihout (x - 10 + m) (by omega)
    have hposlt : x - 10 + m <
        ((List.range m).foldl (windowLeftStep feats x) (st, l)).1.length := by
      rw [ihlen]; omega
    refine ⟨by rw [List.length_set, ihlen], fun p h1 h2 => ?_, fun p hp => ?_⟩
    · rw [getD_set]
      by_cases hpe : p = x - 10 + m
      · rw [if_pos ⟨hpe, hposlt⟩, hpe, hposout]
      · rw [if_neg (fun hc => hpe hc.1)]
        exact ihin p h1 (by omega)
    · rw [getD_set, if_neg (by rintro ⟨hc1, -⟩; exact hp ⟨by omega, by omega⟩)]
      exact ihout p (fun hc => hp ⟨hc.1, Nat.lt_succ_of_lt hc.2⟩)

theorem windowRight_spec (feats : List Feat) (x : ℕ) (st : List Rec)
    (l : Locals) (hx : 10 ≤ x) (hn : x + 10 ≤ st.length) :
    ∃ st' l', windowRight feats x st l = .ok (st', l') ∧
      st'.length = st.length ∧
      (∀ p, x - 10 ≤ p → p < x + 10 →
        (st'.getD p default).xtr =
          (st.getD p default).xtl + rightCorr (feats.getD p default) ∧
        (st'.getD p default).xbr =
          (st.getD p default).xbl + rightCorr (feats.getD p default) ∧
        (st'.getD p default).xtl = (st.getD p default).xtl ∧
        (st'.getD p default).xbl = (st.getD p default).xbl) ∧
      (∀ p, ¬(x - 10 ≤ p ∧ p < x + 10) →
        st'.getD p default = st.getD p default) := by
  obtain ⟨hlen, hin, hout⟩ :=
    windowRightFold_spec feats x st l hx hn 20 le_rfl
  refine ⟨((List.range 20).foldl (windowRightStep feats x) (st, l)).1,
    ((List.range 20).foldl (windowRightStep feats x) (st, l)).2,
    ?_, hlen, fun p h1 h2 => ?_, fun p hp => ?_⟩
  · rw [windowRight, if_pos ⟨hx, hn⟩]
  · rw [hin p h1 (by omega)]
    exact ⟨rfl, rfl, rfl, rfl⟩
  · exact hout p (fun hc => hp ⟨hc.1, by omega⟩)

theorem windowLeft_spec (feats : List Feat) (x : ℕ) (st : List Rec)
    (l : Locals) (hx : 10 ≤ x) (hn : x + 10 ≤ st.length) :
    ∃ st' l', windowLeft feats x st l = .ok (st', l') ∧
      st'.length = st.length ∧
      (∀ p, x - 10 ≤ p → p < x + 10 →
        (st'.getD p default).xtl =
          (st.getD p default).xtr - leftCorr (feats.getD p default) ∧
        (st'.getD p default).xbl =
          (st.getD p default).xbr - leftCorr (feats.getD p default) ∧
        (st'.getD p default).xtr = (st.getD p default).xtr ∧
        (st'.getD p default).xbr = (st.getD p default).xbr) ∧
      (∀ p, ¬(x - 10 ≤ p ∧ p < x + 10) →
        st'.getD p default = st.getD p default) := by
  obtain ⟨hlen, hin, hout⟩ :=
    windowLeftFold_spec feats x st l hx hn 20 le_rfl
  refine ⟨((List.range 20).foldl (windowLeftStep feats x) (st, l)).1,
    ((List.range 20).foldl (windowLeftStep feats x) (st, l)).2,
    ?_, hlen, fun p h1 h2 => ?_, fun p hp => ?_⟩
  · rw [windowLeft, if_pos ⟨hx, hn⟩]
  · rw [hin p h1 (by omega)]
    exact ⟨rfl, rfl, rfl, rfl⟩
  · exact hout p (fun hc => hp ⟨hc.1, by omega⟩)

/-- C1: the stability flags are set exactly as described — a frame `i` is
`unstable_left` iff it is a candidate (its `dist_top_left` jump exceeds 5)
and its `x_top_left` moved by more than 9 pixels versus frame `i - 1`,
symmetrically for `unstable_right` (both may hold) — and the
`unstable_right` correction window at a flagged frame `x` rewrites, at
every position of `[x - 10, x + 10)`, `x_top_right` and `x_bot_right` to
`x_left + left_height * (ratio * angle / 90)` computed from that
position's own current left-side coordinates and its fixed `left_height` /
`angle` columns, leaving the left-side coordinates and all positions
outside the window unchanged (symmetrically for the `unstable_left`
window). -/
theorem c1_unstable_flags_and_correction_window (st0 : List Rec) (i : ℕ)
    (hi : i < st0.length) :
    ((unstableLeft st0).getD i false = true ↔
      i ∈ candidates st0 ∧
        |(st0.getD i default).xtl - (st0.getD (i - 1) default).xtl| > 9) ∧
    ((unstableRight st0).getD i false = true ↔
      i ∈ candidates st0 ∧
        |(st0.getD i default).xtr - (st0.getD (i - 1) default).xtr| > 9) ∧
    (∀ (feats : List Feat) (st : List Rec) (l : Locals),
      10 ≤ i → i + 10 ≤ st.length →
      ∃ st' l', windowRight feats i st l = .ok (st', l') ∧
        st'.length = st.length ∧
        (∀ p, i - 10 ≤ p → p < i + 10 →
          (st'.getD p default).xtr =
            (st.getD p default).xtl + rightCorr (feats.getD p default) ∧
          (st'.getD p default).xbr =
            (st.getD p default).xbl + rightCorr (feats.getD p default) ∧
          (st'.getD p default).xtl = (st.getD p default).xtl ∧
          (st'.getD p default).xbl = (st.getD p default).xbl) ∧
        (∀ p, ¬(i - 10 ≤ p ∧ p < i + 10) →
          st'.getD p default = st.getD p default)) ∧
    (∀ (feats : List Feat) (st : List Rec) (l : Locals),
      10 ≤ i → i + 10 ≤ st.length →
      ∃ st' l', windowLeft feats i st l = .ok (st', l') ∧
        st'.length = st.length ∧
        (∀ p, i - 10 ≤ p → p < i + 10 →
          (st'.getD p default).xtl =
            (st.getD p default).xtr - leftCorr (feats.getD p default) ∧
          (st'.getD p default).xbl =
            (st.getD p default).xbr - leftCorr (feats.getD p default) ∧
          (st'.getD p default).xtr = (st.getD p default).xtr ∧
          (st'.getD p default).xbr = (st.getD p default).xbr) ∧
        (∀ p, ¬(i - 10 ≤ p ∧ p < i + 10) →
          st'.getD p default = st.getD p default)) :=
  ⟨flagsFrom_getD st0 Rec.xtl i hi, flagsFrom_getD st0 Rec.xtr i hi,
    fun feats st l hx hn => windowRight_spec feats i st l hx hn,
    fun feats st l hx hn => windowLeft_spec feats i st l hx hn⟩


theorem c1_witness :
    10 < (List.replicate 20 recA).length ∧
    (∃ st' l', windowRight (List.replicate 20 (mkFeat recA)) 10
        (List.replicate 20 recA) ⟨0, 0, 0, 0⟩ = .ok (st', l') ∧
      (st'.getD 0 default).xtr =
        ((List.replicate 20 recA).getD 0 default).xtl +
          rightCorr ((List.replicate 20 (mkFeat recA)).getD 0 default)) := by
  have hlen : 10 < (List.replicate 20 recA).length := by simp
  have h := (c1_unstable_flags_and_correction_window
    (List.replicate 20 recA) 10 hlen).2.2.1
    (List.replicate 20 (mkFeat recA)) (List.replicate 20 recA) ⟨0, 0, 0, 0⟩
    (by norm_num) (by simp)
  obtain ⟨st', l', heq, hlen', hin, hout⟩ := h
  exact ⟨hlen, st', l', heq, (hin 0 (by norm_num) (by norm_num)).1⟩

/-! ### C5: stabilization and re-stabilization -/

theorem stepFrame_no_flags (feats : List Feat) (fL fR : List Bool)
    (st : List Rec) (x : ℕ) (hL : fL.getD x false = false)
    (hR : fR.getD x false = false) :
    stepFrame feats fL fR (st, none) x = .ok (st, none) := by
  have hL' : fL[x]?.getD false = false := by simpa using hL
  have hR' : fR[x]?.getD false = false := by simpa using hR
  rw [stepFrame]
  simp [hL', hR']

theorem foldlM_stepFrame_no_flags (feats : List Feat) (fL fR : List Bool)
    (hL : ∀ x, fL.getD x false = false) (hR : ∀ x, fR.getD x false = false)
    (L : List ℕ) (st : List Rec) :
    List.foldlM (stepFrame feats fL fR) (st, (none : Option Side)) L =
      .ok (st, none) := by
  induction L with
  | nil => rfl
  | cons a L ih =>
    rw [List.foldlM_cons, stepFrame_no_flags feats fL fR st a (hL a) (hR a)]
    simpa using ih

theorem mainLoop_no_flags (feats : List Feat) (fL fR : List Bool)
    (st0 : List Rec) (hL : ∀ x, fL.getD x false = false)
    (hR : ∀ x, fR.getD x false = false) :
    mainLoop feats fL fR st0 = .ok st0 := by
  rw [mainLoop, foldlM_stepFrame_no_flags feats fL fR hL hR]

theorem flagsFrom_of_no_candidates (st : List Rec) (proj : Rec → ℝ)
    (h : candidates st = []) :
    ∀ x, (flagsFrom st proj).getD x false = false := by
  intro x
  rw [flagsFrom, h, List.foldl_nil, getD_replicate]
  split_ifs <;> rfl

theorem xProj_rectify (r : Rec) : xProj (rectify r) = xProj r := rfl

theorem smoothYs_id (st2 : List Rec) : smoothYs id st2 = .ok st2 := by
  rw [smoothYs, if_pos (by simp)]
  congr 1
  apply List.ext_getElem
  · simp
  · intro i h1 h2
    simp only [List.getElem_map, List.getElem_range]
    have hlm : i < st2.length := by simpa using h2
    have hg : st2.getD i default = st2[i] := List.getD_eq_getElem _ _ hlm
    have hy : ∀ f : Rec → ℝ, (id (st2.map f)).getD i 0 = f st2[i] := by
      intro f
      rw [show id (st2.map f) = st2.map f from rfl,
        List.getD_eq_getElem _ _ (by simpa using hlm), List.getElem_map]
    rw [hg, hy Rec.ytl, hy Rec.ytr, hy Rec.ybl, hy Rec.ybr]

/-- C5 (amended): if the stabilized store contains no candidate frame
(`lost_side` is empty when recomputed on it), then a second stabilization
run that completes changes no x-coordinate — the flags are all clear, the
main pass is the identity, and rectification and y-smoothing touch only
y-coordinates.  (The unamended claim is refuted by the counterexample:
stabilization does not guarantee the stabilized store is candidate-free.) -/
theorem c5_idempotent_when_no_candidates (sm : List ℝ → List ℝ)
    (st s1 s2 : List Rec) (h1 : smoothPoints sm st = .ok s1)
    (h2 : candidates s1 = []) (h3 : smoothPoints sm s1 = .ok s2) :
    s2.map xProj = s1.map xProj := by
  by_cases hemp : s1.isEmpty
  · rw [smoothPoints, if_pos hemp] at h3
    exact absurd h3 (by simp)
  · rw [smoothPoints, if_neg hemp,
      mainLoop_no_flags (s1.map mkFeat) (unstableLeft s1) (unstableRight s1)
        (s1.map rectify)
        (fun x => flagsFrom_of_no_candidates s1 Rec.xtl h2 x)
        (fun x => flagsFrom_of_no_candidates s1 Rec.xtr h2 x)] at h3
    rw [show (match Except.ok (s1.map rectify) with
        | .error e => (Except.error e : Except String (List Rec))
        | .ok st2 => smoothYs sm st2) = smoothYs sm (s1.map rectify)
      from rfl] at h3
    rw [smoothYs] at h3
    by_cases hcond : (sm ((s1.map rectify).map Rec.ytl)).length =
        (s1.map rectify).length ∧
        (sm ((s1.map rectify).map Rec.ytr)).length = (s1.map rectify).length ∧
        (sm ((s1.map rectify).map Rec.ybl)).length = (s1.map rectify).length ∧
        (sm ((s1.map rectify).map Rec.ybr)).length = (s1.map rectify).length
    · rw [if_pos hcond] at h3
      have hs2 : s2 = (List.range (s1.map rectify).length).map (fun i =>
          { (s1.map rectify).getD i default with
              ytl := (sm ((s1.map rectify).map Rec.ytl)).getD i 0,
              ytr := (sm ((s1.map rectify).map Rec.ytr)).getD i 0,
              ybl := (sm ((s1.map rectify).map Rec.ybl)).getD i 0,
              ybr := (sm ((s1.map rectify).map Rec.ybr)).getD i 0 }) := by
        have := h3
        simp only [Except.ok.injEq] at this
        exact this.symm
      rw [hs2]
      apply List.ext_getElem
      · simp
      · intro i hi1 hi2
        simp only [List.getElem_map, List.getElem_range]
        have hlm : i < s1.length := by simpa using hi2
        have hx : xProj { (s1.map rectify).getD i default with
            ytl := (sm ((s1.map rectify).map Rec.ytl)).getD i 0,
            ytr := (sm ((s1.map rectify).map Rec.ytr)).getD i 0,
            ybl := (sm ((s1.map rectify).map Rec.ybl)).getD i 0,
            ybr := (sm ((s1.map rectify).map Rec.ybr)).getD i 0 } =
            xProj ((s1.map rectify).getD i default) := rfl
        rw [hx, List.getD_eq_getElem _ _ (by simpa using hlm),
          List.getElem_map]
        exact xProj_rectify _
    · rw [if_neg hcond] at h3
      exact absurd h3 (by simp)

/-! ### Concrete evaluations of the stabilization pass -/

theorem sqrt_eval (a b : ℝ) (h : a = b ^ 2) (hb : 0 ≤ b) :
    Real.sqrt a = b := by
  rw [h, Real.sqrt_sq hb]

theorem distTopLeft_recA : distTopLeft recA = 65 / 4 := by
  rw [distTopLeft]
  apply sqrt_eval
  · rw [centerX, centerY]
    norm_num [recA]
  · norm_num

theorem distTopLeft_recB : distTopLeft recB = 65 / 4 := by
  rw [distTopLeft]
  apply sqrt_eval
  · rw [centerX, centerY]
    norm_num [recB]
  · norm_num

theorem distTopLeft_recB' : distTopLeft recB' = 4 := by
  rw [distTopLeft]
  apply sqrt_eval
  · rw [centerX, centerY]
    norm_num [recB']
  · norm_num

theorem leftHeight_recA : leftHeight recA = 8 := by
  rw [leftHeight]
  apply sqrt_eval
  · norm_num [recA]
  · norm_num

theorem leftHeight_recB : leftHeight recB = 8 := by
  rw [leftHeight]
  apply sqrt_eval
  · norm_num [recB]
  · norm_num

theorem leftHeight_recB' : leftHeight recB' = 8 := by
  rw [leftHeight]
  apply sqrt_eval
  · norm_num [recB']
  · norm_num

theorem candidates_S3 : candidates [recA, recB, recB] = [] := by
  rw [candidates]
  simp only [List.map_cons, List.map_nil, distTopLeft_recA, distTopLeft_recB]
  simp only [candidatesAux]
  norm_num

theorem candidates_S2 : candidates [recA, recA] = [] := by
  rw [candidates]
  simp only [List.map_cons, List.map_nil, distTopLeft_recA]
  simp only [candidatesAux]
  norm_num

theorem candidates_S3' : candidates [recA, recB', recB'] = [1] := by
  rw [candidates]
  simp only [List.map_cons, List.map_nil, distTopLeft_recA, distTopLeft_recB']
  simp only [candidatesAux]
  have h49 : (5 : ℝ) < |(49 : ℝ) / 4| := by
    rw [abs_of_nonneg (by norm_num : (0 : ℝ) ≤ 49 / 4)]
    norm_num
  norm_num [h49]

theorem rectify_recA : rectify recA = recA := by
  apply Rec.ext <;> simp only [rectify, leftHeight_recA] <;> norm_num [recA]

theorem rectify_recB : rectify recB = recB' := by
  apply Rec.ext <;> simp only [rectify, leftHeight_recB] <;>
    norm_num [recB, recB']

theorem rectify_recB' : rectify recB' = recB' := by
  apply Rec.ext <;> simp only [rectify, leftHeight_recB'] <;> norm_num [recB']

theorem smoothPoints_S3 :
    smoothPoints id [recA, recB, recB] = .ok [recA, recB', recB'] := by
  have hrect : List.map rectify [recA, recB, recB] = [recA, recB', recB'] := by
    simp only [List.map_cons, List.map_nil, rectify_recA, rectify_recB]
  have hmain : mainLoop (List.map mkFeat [recA, recB, recB])
      (unstableLeft [recA, recB, recB]) (unstableRight [recA, recB, recB])
      (List.map rectify [recA, recB, recB]) = .ok [recA, recB', recB'] := by
    rw [hrect]
    exact mainLoop_no_flags _ _ _ _
      (fun x => flagsFrom_of_no_candidates _ Rec.xtl candidates_S3 x)
      (fun x => flagsFrom_of_no_candidates _ Rec.xtr candidates_S3 x)
  rw [smoothPoints, if_neg (by simp), hmain]
  exact smoothYs_id _

theorem smoothPoints_S2 :
    smoothPoints id [recA, recA] = .ok [recA, recA] := by
  have hrect : List.map rectify [recA, recA] = [recA, recA] := by
    simp only [List.map_cons, List.map_nil, rectify_recA]
  have hmain : mainLoop (List.map mkFeat [recA, recA])
      (unstableLeft [recA, recA]) (unstableRight [recA, recA])
      (List.map rectify [recA, recA]) = .ok [recA, recA] := by
    rw [hrect]
    exact mainLoop_no_flags _ _ _ _
      (fun x => flagsFrom_of_no_candidates _ Rec.xtl candidates_S2 x)
      (fun x => flagsFrom_of_no_candidates _ Rec.xtr candidates_S2 x)
  rw [smoothPoints, if_neg (by simp), hmain]
  exact smoothYs_id _

theorem stepFrame_out_of_window (feats : List Feat) (fL fR : List Bool)
    (st : List Rec) (lat : Option Side) (x : ℕ)
    (hR : fR.getD x false = true) (hx : ¬(10 ≤ x ∧ x + 10 ≤ st.length)) :
    stepFrame feats fL fR (st, lat) x = .error "KeyError" := by
  have hR' : fR[x]?.getD false = true := by simpa using hR
  rw [stepFrame]
  simp [hR', windowRight, hx]

theorem unstableRight_S3' :
    ∀ x, (unstableRight [recA, recB', recB']).getD x false =
      (x == 1 : Bool) := by
  intro x
  rw [unstableRight, flagsFrom, candidates_S3', List.foldl_cons,
    List.foldl_nil]
  have hc : |Rec.xtr ([recA, recB', recB'].getD 1 default) -
      Rec.xtr ([recA, recB', recB'].getD (1 - 1) default)| > 9 := by
    have hv : Rec.xtr ([recA, recB', recB'].getD 1 default) -
        Rec.xtr ([recA, recB', recB'].getD (1 - 1) default) = -(43 / 2) := by
      norm_num [recA, recB']
    rw [hv, abs_neg, abs_of_nonneg (by norm_num : (0 : ℝ) ≤ 43 / 2)]
    norm_num
  rw [if_pos hc]
  rw [show [recA, recB', recB'].length = 3 from rfl,
    show (List.replicate 3 false).set 1 true = [false, true, false] from rfl]
  match x with
  | 0 => rfl
  | 1 => rfl
  | 2 => rfl
  | n + 3 => rfl

theorem smoothPoints_S3' :
    smoothPoints id [recA, recB', recB'] = .error "KeyError" := by
  have hrect : List.map rectify [recA, recB', recB'] = [recA, recB', recB'] := by
    simp only [List.map_cons, List.map_nil, rectify_recA, rectify_recB']
  have hstep1 : stepFrame (List.map mkFeat [recA, recB', recB'])
      (unstableLeft [recA, recB', recB'])
      (unstableRight [recA, recB', recB'])
      ([recA, recB', recB'], (none : Option Side)) 1 = .error "KeyError" :=
    stepFrame_out_of_window _ _ _ _ _ 1 (by rw [unstableRight_S3' 1]; rfl)
      (by norm_num)
  have hstep0 : stepFrame (List.map mkFeat [recA, recB', recB'])
      (unstableLeft [recA, recB', recB'])
      (unstableRight [recA, recB', recB'])
      ([recA, recB', recB'], (none : Option Side)) 0 =
      .ok ([recA, recB', recB'], none) := by
    apply stepFrame_no_flags
    · cases hval : (unstableLeft [recA, recB', recB']).getD 0 false with
      | false => rfl
      | true =>
        exact absurd (((flagsFrom_getD _ Rec.xtl 0 (by norm_num)).1 hval).1)
          (by rw [candidates_S3']; simp)
    · rw [unstableRight_S3' 0]
      rfl
  have hml : mainLoop (List.map mkFeat [recA, recB', recB'])
      (unstableLeft [recA, recB', recB'])
      (unstableRight [recA, recB', recB'])
      [recA, recB', recB'] = .error "KeyError" := by
    rw [mainLoop,
      show List.range ([recA, recB', recB'] : List Rec).length = [0, 1, 2]
        from rfl,
      List.foldlM_cons, hstep0]
    rw [show ((Except.ok ([recA, recB', recB'], (none : Option Side)) >>=
        fun b => List.foldlM (stepFrame (List.map mkFeat [recA, recB', recB'])
          (unstableLeft [recA, recB', recB'])
          (unstableRight [recA, recB', recB'])) b [1, 2]) =
        List.foldlM (stepFrame (List.map mkFeat [recA, recB', recB'])
          (unstableLeft [recA, recB', recB'])
          (unstableRight [recA, recB', recB']))
          ([recA, recB', recB'], (none : Option Side)) [1, 2]) from rfl]
    rw [List.foldlM_cons, hstep1]
    rfl
  rw [smoothPoints, if_neg (by simp), hrect, hml]

/-- C5 (counterexample): on the three-frame store `[recA, recB, recB]`
(with the interpolating identity configuration of `__smooth_series`),
stabilization completes and produces `[recA, recB', recB']` — but that
stabilized store still contains candidate frame 1 (its `dist_top_left`
changed because y-rectification pulled `y_bot_right` from 57 to 8), so a
second run is not a no-op on x-coordinates: it flags frame 1 and dies
with `KeyError` in the correction window instead of changing nothing. -/
theorem c5_counterexample_restabilization_not_noop :
    smoothPoints id [recA, recB, recB] = .ok [recA, recB', recB'] ∧
    candidates [recA, recB', recB'] ≠ [] ∧
    smoothPoints id [recA, recB', recB'] = .error "KeyError" :=
  ⟨smoothPoints_S3, by rw [candidates_S3']; simp, smoothPoints_S3'⟩

theorem c5_witness :
    smoothPoints id [recA, recA] = .ok [recA, recA] ∧
    candidates [recA, recA] = [] ∧
    ([recA, recA].map xProj = [recA, recA].map xProj) :=
  ⟨smoothPoints_S2, candidates_S2,
    c5_idempotent_when_no_candidates id [recA, recA] [recA, recA] [recA, recA]
      smoothPoints_S2 candidates_S2 smoothPoints_S2⟩

end BannerDetector
